import Mathlib

/-!
Verification of the `vivid` repository's specification against its code.

Part 1 embeds `vivid/visualize.py` (exception classes, `extract_importance`,
`check_y_and_pred`, `visualize_feature_importance`).

Part 2 models the out-of-fold feature orchestration (`vivid/out_of_fold/base.py`
is not present in the source tree; only its tests are), following the spec's
description of the pipeline and the API exercised by the tests.
-/

namespace Vivid

/-! ### Python exception classes appearing in `vivid/visualize.py`

The source declares `class NotSupportedError(BaseException)`; `ValueError` is a
builtin subclass of `Exception`, which is a subclass of `BaseException`. -/

inductive PyClass
  | BaseException
  | Exception
  | ValueError
  | NotSupportedError
  deriving DecidableEq, Repr

/-- The declared base class of each exception class.  `NotSupportedError`
derives directly from `BaseException` in `vivid/visualize.py`. -/
def pyParent : PyClass → Option PyClass
  | .BaseException => none
  | .Exception => some .BaseException
  | .ValueError => some .Exception
  | .NotSupportedError => some .BaseException

/-- The class together with its chain of base classes (fuel-bounded walk up
`pyParent`; the hierarchy has depth at most 3). -/
def ancestorsAux : Nat → PyClass → List PyClass
  | 0, _ => []
  | n + 1, c => c :: (match pyParent c with
      | none => []
      | some p => ancestorsAux n p)

def ancestors (c : PyClass) : List PyClass := ancestorsAux 5 c

/-- `except H` catches a raised instance of class `c` iff `H` is `c` or one of
its (transitive) base classes. -/
def caughtBy (handler c : PyClass) : Bool := (ancestors c).contains handler

/-! ### `extract_importance` (`vivid/visualize.py`)

A fitted estimator is modelled by which of the three importance attributes it
has and their values (importance vectors, as rational arrays). -/

structure Clf where
  feature_importances_ : Option (List ℚ)
  feature_importance_ : Option (List ℚ)
  coef_ : Option (List ℚ)
  deriving DecidableEq, Repr

/-- `extract_importance(clf)`: try the attributes
`feature_importances_`, `feature_importance_`, `coef_` in that order and
return the first one present; raise `NotSupportedError` when none is. -/
def extract_importance (clf : Clf) : Except PyClass (List ℚ) :=
  match clf.feature_importances_ with
  | some v => .ok v
  | none =>
    match clf.feature_importance_ with
    | some v => .ok v
    | none =>
      match clf.coef_ with
      | some v => .ok v
      | none => .error .NotSupportedError

/-! ### `check_y_and_pred` (`vivid/visualize.py`)

`y_true` is a 1- or 2-dimensional numeric array; values are rationals.
Python's `int()` truncates toward zero, `np.unique` returns sorted unique
values, and `reshape(-1, n)` requires `n` to be a positive divisor of the
total size. -/

/-- Python `int(x)` for a numeric `x`: truncation toward zero. -/
def pyInt (q : ℚ) : ℤ := Int.tdiv q.num q.den

/-- `np.unique`: the sorted list of distinct values. -/
def npUnique (ys : List ℚ) : List ℚ := List.insertionSort (· ≤ ·) ys.dedup

/-- A numpy array argument that is either 1-dimensional or 2-dimensional. -/
inductive YArray
  | oneD (ys : List ℚ)
  | twoD (rows : List (List ℚ))
  deriving DecidableEq, Repr

/-- The flat data of the array (row-major, as numpy stores it). -/
def YArray.flat : YArray → List ℚ
  | .oneD ys => ys
  | .twoD rows => rows.flatten

/-- The `classes` computed by `check_y_and_pred`: for 2-d input,
`range(y_true.shape[1])`; for 1-d input, the unique values whose `int` cast is
nonzero. -/
def checkClasses : YArray → List ℚ
  | .twoD rows => (List.range (rows.headD []).length).map (fun i => (i : ℚ))
  | .oneD ys => (npUnique ys).filter (fun x => pyInt x ≠ 0)

/-- `chunksAux n k l` splits `l` into `k` consecutive chunks of length `n`. -/
def chunksAux (n : ℕ) : ℕ → List ℚ → List (List ℚ)
  | 0, _ => []
  | k + 1, l => l.take n :: chunksAux n k (l.drop n)

/-- `np.reshape(a, (-1, n))`: succeeds exactly when `n` is a positive divisor
of the size, giving the rows of the reshaped 2-d array. -/
def npReshapeNeg1 (flat : List ℚ) (n : ℕ) : Option (List (List ℚ)) :=
  if 0 < n ∧ n ∣ flat.length then some (chunksAux n (flat.length / n) flat) else none

/-- `check_y_and_pred(y_true, y_pred)`: determine the classes, then return
both arrays reshaped to `(-1, n_classes)` together with the classes. -/
def check_y_and_pred (y_true : YArray) (y_pred : YArray) :
    Option (List (List ℚ) × List (List ℚ) × List ℚ) :=
  match npReshapeNeg1 y_true.flat (checkClasses y_true).length,
        npReshapeNeg1 y_pred.flat (checkClasses y_true).length with
  | some a, some b => some (a, b, checkClasses y_true)
  | _, _ => none

/-! ### `visualize_feature_importance` (`vivid/visualize.py`)

Column names are identifiers (naturals).  The importance dataframe is a list
of rows `(feature_importance, column, fold)` assembled model by model; the
plotting order sorts the grouped column sums descending.  Events record the
observable sequencing: the dataframe is computed before the `plot_type`
dispatch, and a plot is drawn only for `"bar"` / `"boxen"`. -/

structure ImpRow where
  feature_importance : ℚ
  column : ℕ
  fold : ℕ
  deriving DecidableEq, Repr

/-- The loop `for i, model in enumerate(models)` building `importance_df`,
starting at index `i`.  Extraction failure propagates (`NotSupportedError`);
a length mismatch between the importance vector and `columns` is a pandas
`ValueError` on the `_df['column'] = columns` assignment. -/
def importanceRows (columns : List ℕ) : ℕ → List Clf → Except PyClass (List ImpRow)
  | _, [] => .ok []
  | i, m :: ms =>
    match extract_importance m with
    | .error e => .error e
    | .ok imp =>
      if imp.length = columns.length then
        match importanceRows columns (i + 1) ms with
        | .error e => .error e
        | .ok rest => .ok ((imp.zip columns).map (fun vc => ⟨vc.1, vc.2, i + 1⟩) ++ rest)
      else .error .ValueError

/-- `importance_df.groupby('column').sum()['feature_importance']` for one key. -/
def colSum (rows : List ImpRow) (c : ℕ) : ℚ :=
  ((rows.filter (fun r => r.column = c)).map ImpRow.feature_importance).sum

/-- The group keys of `groupby('column')` (pandas sorts keys ascending). -/
def groupKeys (rows : List ImpRow) : List ℕ :=
  List.insertionSort (· ≤ ·) (rows.map ImpRow.column).dedup

/-- `.sort_values('feature_importance', ascending=False).index`: the group
keys ordered by descending summed importance. -/
def orderOf (rows : List ImpRow) : List ℕ :=
  List.insertionSort (fun a b => colSum rows b ≤ colSum rows a) (groupKeys rows)

inductive Event
  | computedImportanceDf
  | drewPlot
  deriving DecidableEq, Repr

structure VisResult where
  events : List Event
  result : Except PyClass (List ImpRow × List ℕ)
  deriving Repr

/-- `visualize_feature_importance(models, columns, plot_type, top_n)`:
build the importance dataframe, compute the plotting order (truncated to
`top_n` when that is an int), then dispatch on `plot_type` — `"boxen"` and
`"bar"` draw a plot, anything else raises `ValueError`. -/
def visualize_feature_importance (models : List Clf) (columns : List ℕ)
    (plot_type : String) (top_n : Option ℕ) : VisResult :=
  match importanceRows columns 0 models with
  | .error e => ⟨[], .error e⟩
  | .ok rows =>
    let order := orderOf rows
    let order := match top_n with
      | some n => order.take n
      | none => order
    if plot_type = "boxen" ∨ plot_type = "bar" then
      ⟨[.computedImportanceDf, .drewPlot], .ok (rows, order)⟩
    else
      ⟨[.computedImportanceDf], .error .ValueError⟩

/-! ### Out-of-fold features

`vivid/out_of_fold/base.py` is not part of the source tree; only its tests
are.  The definitions below are therefore modelled from the spec's
description of the pipeline — "(1) compute a fold split via a library
cross-validation splitter, (2) fit one model instance per fold using a
library estimator, (3) write held-out predictions into an output column,
(4) serialize each fold's fitted model to disk, (5) on a repeat call with
identical inputs, short-circuit and return the cached in-memory result",
with "raise if asked to predict before fit" as the only failure behaviour —
and from the API surface the tests exercise (`fit`, `predict`,
`load_best_models`, `get_fold_splitting`, `feat_on_train_df`,
`fitted_models`, `finish_fit`, `is_recording`, `serializer_path`,
`fit_params_`, `study.best_value`, `scoring_strategy`). -/

/-- A dataframe row: the feature values of one sample. -/
abbrev Row := List ℚ

/-- `xs[idx]`: the sub-array of `xs` at the given index list (numpy fancy
indexing, as used to restrict data to a fold's partition). -/
def restrictIdx {α : Type} (xs : List α) (idx : List ℕ) (dflt : α) : List α :=
  idx.map (fun i => xs.getD i dflt)

/-- Modelled from the spec: one fitted fold model of the wrapped library
estimator.  Fitting records its inputs (the tests read back
`fit_params_['sample_weight']`); `hyper` is the hyperparameter chosen by the
search trial that produced it. -/
structure FoldModel where
  train_X : List Row
  train_y : List ℚ
  fit_params_ : Option (List ℚ)
  hyper : ℚ
  deriving DecidableEq, Repr

/-- Modelled from the spec: fit one library-estimator instance on the rows of
the fold's training partition (restricting any per-sample fit argument such
as `sample_weight` alongside). -/
def fitFoldModel (df : List Row) (y : List ℚ) (w : Option (List ℚ)) (hyper : ℚ)
    (idx_train : List ℕ) : FoldModel :=
  ⟨restrictIdx df idx_train [], restrictIdx y idx_train 0,
   w.map (fun wv => restrictIdx wv idx_train 0), hyper⟩

/-- Modelled from the spec: the library estimator's prediction on one row —
an arbitrary but deterministic function of the stored fit. -/
def predictModel (m : FoldModel) (x : Row) : ℚ :=
  m.hyper * x.sum + m.train_y.sum

/-- The sizes of the `k` folds of `n` samples, as the library splitter
(sklearn `KFold`) computes them: `n % k` folds of size `n / k + 1` followed
by folds of size `n / k`. -/
def foldSizes (n k : ℕ) : List ℕ :=
  (List.range k).map (fun i => n / k + if i < n % k then 1 else 0)

/-- Contiguous `(start, size)` blocks for the given sizes, starting at `s`. -/
def splitsOfSizes (s : ℕ) : List ℕ → List (ℕ × ℕ)
  | [] => []
  | sz :: rest => (s, sz) :: splitsOfSizes (s + sz) rest

/-- Modelled from the spec: `get_fold_splitting` — the list of
`(idx_train, idx_valid)` pairs of the cross-validation split of `n` samples
into `k` folds.  Each fold's validation indices are one contiguous block;
its training indices are all the others. -/
def get_fold_splitting (k n : ℕ) : List (List ℕ × List ℕ) :=
  (splitsOfSizes 0 (foldSizes n k)).map (fun ss =>
    ((List.range n).filter (fun j => decide (j < ss.1) || decide (ss.1 + ss.2 ≤ j)),
     List.range' ss.1 ss.2))

/-- The fold model's predictions on the rows at the validation indices. -/
def foldPredictions (df : List Row) (m : FoldModel) (idx_valid : List ℕ) : List ℚ :=
  (restrictIdx df idx_valid []).map (predictModel m)

/-- Write the `(index, value)` assignments into the column (last write
wins), represented as a function from positions to values. -/
def writeAt (g : ℕ → ℚ) (pairs : List (ℕ × ℚ)) : ℕ → ℚ :=
  pairs.foldl (fun f p => Function.update f p.1 p.2) g

/-- Apply a list of block writes (each an index list with its values). -/
def writeAll (g : ℕ → ℚ) (l : List (List ℕ × List ℚ)) : ℕ → ℚ :=
  l.foldl (fun f iv => writeAt f (iv.1.zip iv.2)) g

/-- Modelled from the spec: the out-of-fold output column — start from a
zero column of length `len(df)` and write each fold model's held-out
predictions at that fold's validation indices. -/
def oofColumn (df : List Row) (splitModels : List ((List ℕ × List ℕ) × FoldModel)) :
    List ℚ :=
  (List.range df.length).map
    (writeAll (fun _ => 0)
      (splitModels.map (fun sm => (sm.1.2, foldPredictions df sm.2 sm.1.2))))

/-- `scoring_strategy`: score the whole assembled column, or average the
per-fold scores. -/
inductive ScoringStrategy
  | whole
  | fold
  deriving DecidableEq, Repr

/-- The value Optuna records for one trial: with strategy `whole`, the score
of the assembled out-of-fold column against `y`; with strategy `fold`, the
mean of the per-fold scores on the held-out partitions. -/
def trialValue (strategy : ScoringStrategy) (score : List ℚ → List ℚ → ℚ)
    (df : List Row) (y : List ℚ)
    (splitModels : List ((List ℕ × List ℕ) × FoldModel)) (oof : List ℚ) : ℚ :=
  match strategy with
  | .whole => score y oof
  | .fold =>
    ((splitModels.map (fun sm =>
        score (restrictIdx y sm.1.2 0) (foldPredictions df sm.2 sm.1.2))).sum)
      / (splitModels.length : ℚ)

/-- Modelled from the spec: one search trial — split, fit one model per
fold, assemble the out-of-fold column, and record the trial's value. -/
def runTrial (score : List ℚ → List ℚ → ℚ) (strategy : ScoringStrategy)
    (w : Option (List ℚ)) (k : ℕ) (df : List Row) (y : List ℚ) (hyper : ℚ) :
    ℚ × List FoldModel × List ℚ :=
  let sm := (get_fold_splitting k df.length).map
    (fun tv => (tv, fitFoldModel df y w hyper tv.1))
  let oof := oofColumn df sm
  (trialValue strategy score df y sm oof, sm.map Prod.snd, oof)

/-- The best (highest-value) trial; on ties the earlier trial wins. -/
def pickBest {α : Type} : List (ℚ × α) → Option (ℚ × α)
  | [] => none
  | x :: xs => some (xs.foldl (fun best c => if best.1 < c.1 then c else best) x)

/-- The error raised when a feature is asked for its models or predictions
before a (recorded) fit. -/
inductive OOFError
  | NotFittedError
  deriving DecidableEq, Repr

/-- The serializer: on-disk storage of fold models keyed by path. -/
abbrev Disk := List (String × List FoldModel)

def diskWrite (d : Disk) (p : String) (ms : List FoldModel) : Disk := (p, ms) :: d

def diskRead (d : Disk) (p : String) : Option (List FoldModel) :=
  (d.find? (fun e => e.1 = p)).map Prod.snd

/-- The in-memory state of one out-of-fold feature.  `is_recording` holds
when the feature has a recording parent; `feat_on_train_df` caches the
inputs and output of the last fit. -/
structure FeatureState where
  is_recording : Bool
  serializer_path : String
  feat_on_train_df : Option (List Row × List ℚ × List ℚ)
  fitted_models : List FoldModel
  study_best_value : Option ℚ
  finish_fit : Bool
  deriving DecidableEq, Repr

/-- A freshly constructed feature: nothing cached, nothing fitted. -/
def mkFeature (is_recording : Bool) (serializer_path : String) : FeatureState :=
  ⟨is_recording, serializer_path, none, [], none, false⟩

/-- The static parameters of a fit: number of folds, the search trials'
candidate hyperparameters, the scoring strategy and an optional per-sample
`sample_weight`. -/
structure OOFParams where
  n_folds : ℕ
  trials : List ℚ
  strategy : ScoringStrategy
  sample_weight : Option (List ℚ)

/-- Modelled from the spec: the body of a (re)fit — run the trials, keep the
best one's fold models and out-of-fold column, populate the in-memory cache,
mark the fit finished, and serialize the fold models to disk when the
feature is recording. -/
def fitInner (score : List ℚ → List ℚ → ℚ) (params : OOFParams)
    (s : FeatureState) (disk : Disk) (df : List Row) (y : List ℚ) :
    List ℚ × FeatureState × Disk :=
  match pickBest (params.trials.map
      (runTrial score params.strategy params.sample_weight params.n_folds df y)) with
  | none => ([], s, disk)
  | some (v, models, oof) =>
    (oof,
     { s with
        feat_on_train_df := some (df, y, oof)
        fitted_models := models
        study_best_value := some v
        finish_fit := true },
     if s.is_recording then diskWrite disk s.serializer_path models else disk)

/-- Modelled from the spec: `fit(df, y)` — on a repeat call with identical
inputs, short-circuit and return the cached in-memory result; otherwise run
the fit. -/
def fit (score : List ℚ → List ℚ → ℚ) (params : OOFParams) (s : FeatureState)
    (disk : Disk) (df : List Row) (y : List ℚ) : List ℚ × FeatureState × Disk :=
  match s.feat_on_train_df with
  | some c =>
    if c.1 = df ∧ c.2.1 = y then (c.2.2, s, disk) else fitInner score params s disk df y
  | none => fitInner score params s disk df y

/-- Modelled from the spec: `load_best_models` — deserialize the fold models
from disk; raise `NotFittedError` unless the feature records and the file
exists. -/
def load_best_models (s : FeatureState) (disk : Disk) :
    Except OOFError (List FoldModel) :=
  if s.is_recording then
    match diskRead disk s.serializer_path with
    | some ms => .ok ms
    | none => .error .NotFittedError
  else .error .NotFittedError

/-- The feature's prediction on new rows: the mean of the fold models'
predictions. -/
def ensemblePredict (ms : List FoldModel) (df : List Row) : List ℚ :=
  df.map (fun row => (ms.map (fun m => predictModel m row)).sum / (ms.length : ℚ))

/-- Modelled from the spec: `predict(df)` — use the in-memory fitted models
when the fit finished, else deserialize them from disk; raise
`NotFittedError` if asked to predict before fit. -/
def predict (s : FeatureState) (disk : Disk) (df : List Row) :
    Except OOFError (List ℚ) :=
  if s.finish_fit then .ok (ensemblePredict s.fitted_models df)
  else
    match load_best_models s disk with
    | .ok ms => .ok (ensemblePredict ms df)
    | .error e => .error e

/-! ### Lemmas about the visualize embedding -/

theorem chunksAux_flatten (n : ℕ) :
    ∀ (k : ℕ) (l : List ℚ), l.length = k * n → (chunksAux n k l).flatten = l := by
  intro k
  induction k with
  | zero =>
    intro l hl
    simp only [Nat.zero_mul, List.length_eq_zero] at hl
    simp [chunksAux, hl]
  | succ k ih =>
    intro l hl
    have hn : n ≤ l.length := by
      rw [hl, Nat.succ_mul]; exact Nat.le_add_left _ _
    have hdrop : (l.drop n).length = k * n := by
      rw [List.length_drop, hl, Nat.succ_mul, Nat.add_sub_cancel]
    simp only [chunksAux, List.flatten_cons, ih _ hdrop, List.take_append_drop]

theorem chunksAux_mem_length (n : ℕ) :
    ∀ (k : ℕ) (l : List ℚ), l.length = k * n →
      ∀ r ∈ chunksAux n k l, r.length = n := by
  intro k
  induction k with
  | zero => intro l _ r hr; simp [chunksAux] at hr
  | succ k ih =>
    intro l hl r hr
    have hn' : n ≤ l.length := by
      rw [hl, Nat.succ_mul]; exact Nat.le_add_left _ _
    have hdrop : (l.drop n).length = k * n := by
      rw [List.length_drop, hl, Nat.succ_mul, Nat.add_sub_cancel]
    simp only [chunksAux, List.mem_cons] at hr
    rcases hr with rfl | hr
    · simpa using Nat.min_eq_left hn'
    · exact ih _ hdrop r hr

theorem npReshapeNeg1_ok (flat : List ℚ) (n : ℕ) (hn : 0 < n) (hd : n ∣ flat.length) :
    ∃ g, npReshapeNeg1 flat n = some g ∧ g.flatten = flat ∧ ∀ r ∈ g, r.length = n := by
  have hlen : flat.length = flat.length / n * n := (Nat.div_mul_cancel hd).symm
  refine ⟨chunksAux n (flat.length / n) flat, ?_, ?_, ?_⟩
  · simp [npReshapeNeg1, hn, hd]
  · exact chunksAux_flatten n _ flat hlen
  · exact chunksAux_mem_length n _ flat hlen

theorem npReshapeNeg1_eq_some (flat : List ℚ) (n : ℕ) (g : List (List ℚ))
    (h : npReshapeNeg1 flat n = some g) :
    g.flatten = flat ∧ ∀ r ∈ g, r.length = n := by
  by_cases hc : 0 < n ∧ n ∣ flat.length
  · obtain ⟨g', hg', hf, hl⟩ := npReshapeNeg1_ok flat n hc.1 hc.2
    rw [h] at hg'
    injection hg' with e
    subst e
    exact ⟨hf, hl⟩
  · rw [npReshapeNeg1, if_neg hc] at h
    cases h

/-- A list with no duplicates, all of whose members equal `a`, and which
contains `a`, is exactly `[a]`. -/
theorem nodup_all_eq_singleton {α : Type} (l : List α) (a : α) (hnd : l.Nodup)
    (hall : ∀ x ∈ l, x = a) (hmem : a ∈ l) : l = [a] := by
  match l, hnd with
  | [], _ => cases hmem
  | x :: xs, hnd =>
    have hx : x = a := hall x (List.mem_cons_self _ _)
    subst hx
    have : xs = [] := by
      cases xs with
      | nil => rfl
      | cons y ys =>
        have hy : y = x := hall y (by simp)
        subst hy
        rw [List.nodup_cons] at hnd
        exact absurd (List.mem_cons_self _ _) hnd.1
    simp [this]

theorem mem_checkClasses_oneD (ys : List ℚ) (x : ℚ) :
    x ∈ checkClasses (.oneD ys) ↔ x ∈ ys ∧ pyInt x ≠ 0 := by
  simp only [checkClasses, List.mem_filter, decide_eq_true_eq]
  constructor
  · rintro ⟨hmem, hne⟩
    exact ⟨List.mem_dedup.mp ((List.perm_insertionSort _ _).mem_iff.mp hmem), hne⟩
  · rintro ⟨hmem, hne⟩
    exact ⟨(List.perm_insertionSort _ _).mem_iff.mpr (List.mem_dedup.mpr hmem), hne⟩

theorem nodup_checkClasses_oneD (ys : List ℚ) : (checkClasses (.oneD ys)).Nodup := by
  have h1 : ys.dedup.Nodup := List.nodup_dedup ys
  have h2 : (List.insertionSort (· ≤ ·) ys.dedup).Nodup :=
    (List.perm_insertionSort _ _).nodup_iff.mpr h1
  exact h2.filter _

/-- The loop building `importance_df`, starting from enumeration index `i`:
when every model yields an importance vector of the right length, it
produces `columns.length` rows per model, with fold numbers `i+1, i+2, …`
in blocks. -/
theorem importanceRows_ok (columns : List ℕ) :
    ∀ (models : List Clf) (i : ℕ),
      (∀ m ∈ models, ∃ v, extract_importance m = .ok v ∧ v.length = columns.length) →
      ∃ rows, importanceRows columns i models = .ok rows ∧
        rows.length = models.length * columns.length ∧
        rows.map ImpRow.fold
          = (List.range' (i + 1) models.length).flatMap
              (fun j => List.replicate columns.length j) := by
  intro models
  induction models with
  | nil => intro i _; exact ⟨[], rfl, by simp, by simp⟩
  | cons m ms ih =>
    intro i h
    obtain ⟨v, hv, hlen⟩ := h m (List.mem_cons_self _ _)
    obtain ⟨rest, hrest, hrlen, hrfold⟩ := ih (i + 1) (fun m' hm' => h m' (List.mem_cons_of_mem _ hm'))
    have hzip : (v.zip columns).length = columns.length := by
      rw [List.length_zip, hlen, Nat.min_self]
    refine ⟨(v.zip columns).map (fun vc => ⟨vc.1, vc.2, i + 1⟩) ++ rest, ?_, ?_, ?_⟩
    · simp [importanceRows, hv, hlen, hrest]
    · simp only [List.length_append, List.length_map, hzip, hrlen, List.length_cons,
        Nat.succ_mul]
      ring
    · have hfold : ((v.zip columns).map (fun vc => (⟨vc.1, vc.2, i + 1⟩ : ImpRow))).map
          ImpRow.fold = List.replicate columns.length (i + 1) := by
        rw [List.map_map]
        have : (ImpRow.fold ∘ fun vc : ℚ × ℕ => (⟨vc.1, vc.2, i + 1⟩ : ImpRow))
            = fun _ => i + 1 := rfl
        rw [this, List.map_const', hzip]
      rw [List.map_append, hfold, hrfold, List.length_cons, List.range'_succ,
        List.flatMap_cons]

/-! ### Lemmas about the out-of-fold model -/

theorem pickBest_mem {α : Type} (l : List (ℚ × α)) (b : ℚ × α)
    (h : pickBest l = some b) : b ∈ l := by
  match l with
  | [] => cases h
  | x :: xs =>
    simp only [pickBest, Option.some_inj] at h
    subst h
    suffices hgen : ∀ (a : ℚ × α),
        xs.foldl (fun best c => if best.1 < c.1 then c else best) a ∈ a :: xs by
      exact hgen x
    induction xs with
    | nil => intro a; simp
    | cons c cs ih =>
      intro a
      simp only [List.foldl_cons]
      have hstep : (if a.1 < c.1 then c else a) = c ∨ (if a.1 < c.1 then c else a) = a := by
        by_cases hc : a.1 < c.1 <;> simp [hc]
      rcases List.mem_cons.mp (ih (if a.1 < c.1 then c else a)) with he | he
      · rcases hstep with hs | hs <;> rw [he, hs]
        · exact List.mem_cons_of_mem _ (List.mem_cons_self _ _)
        · exact List.mem_cons_self _ _
      · exact List.mem_cons_of_mem _ (List.mem_cons_of_mem _ he)

theorem writeAt_not_mem (g : ℕ → ℚ) (pairs : List (ℕ × ℚ)) (j : ℕ)
    (h : ∀ p ∈ pairs, p.1 ≠ j) : writeAt g pairs j = g j := by
  induction pairs generalizing g with
  | nil => rfl
  | cons p ps ih =>
    show writeAt (Function.update g p.1 p.2) ps j = g j
    rw [ih _ (fun q hq => h q (List.mem_cons_of_mem _ hq))]
    exact Function.update_noteq (Ne.symm (h p (List.mem_cons_self _ _))) _ _

theorem writeAll_not_mem (g : ℕ → ℚ) (l : List (List ℕ × List ℚ)) (j : ℕ)
    (h : ∀ p ∈ l, j ∉ p.1) : writeAll g l j = g j := by
  induction l generalizing g with
  | nil => rfl
  | cons p ps ih =>
    show writeAll (writeAt g (p.1.zip p.2)) ps j = g j
    rw [ih _ (fun q hq => h q (List.mem_cons_of_mem _ hq))]
    exact writeAt_not_mem g _ j (fun q hq e =>
      h p (List.mem_cons_self _ _) (e ▸ (List.of_mem_zip hq).1))

theorem writeAt_range' :
    ∀ (sz s : ℕ) (g : ℕ → ℚ) (vals : List ℚ) (off : ℕ),
      vals.length = sz → off < sz →
      writeAt g ((List.range' s sz).zip vals) (s + off) = vals.getD off 0 := by
  intro sz
  induction sz with
  | zero => intro s g vals off _ hoff; omega
  | succ sz ih =>
    intro s g vals off hlen hoff
    match vals, hlen with
    | v :: vs, hlen =>
      rw [List.range'_succ, List.zip_cons_cons]
      show writeAt (Function.update g s v) ((List.range' (s + 1) sz).zip vs) (s + off)
          = (v :: vs).getD off 0
      rcases off with _ | t
      · rw [writeAt_not_mem]
        · simp
        · intro p hp e
          have hmem := (List.of_mem_zip hp).1
          rw [e, Nat.add_zero, List.mem_range'] at hmem
          omega
      · rw [show s + (t + 1) = (s + 1) + t by omega,
          ih (s + 1) (Function.update g s v) vs t (by simpa using hlen) (by omega)]
        rfl

theorem splitsOfSizes_length (s : ℕ) (sizes : List ℕ) :
    (splitsOfSizes s sizes).length = sizes.length := by
  induction sizes generalizing s with
  | nil => rfl
  | cons sz rest ih => simp [splitsOfSizes, ih]

theorem splitsOfSizes_drop (sizes : List ℕ) :
    ∀ (i s : ℕ), (splitsOfSizes s sizes).drop i
      = splitsOfSizes (s + (sizes.take i).sum) (sizes.drop i) := by
  induction sizes with
  | nil => intro i s; simp [splitsOfSizes]
  | cons sz rest ih =>
    intro i s
    cases i with
    | zero => simp
    | succ i =>
      simp only [splitsOfSizes, List.drop_succ_cons, List.take_succ_cons,
        List.sum_cons, ih i (s + sz)]
      ring_nf

theorem splitsOfSizes_mem_bound (sizes : List ℕ) :
    ∀ (s : ℕ) (p : ℕ × ℕ), p ∈ splitsOfSizes s sizes →
      s ≤ p.1 ∧ p.1 + p.2 ≤ s + sizes.sum := by
  induction sizes with
  | nil => intro s p hp; cases hp
  | cons sz rest ih =>
    intro s p hp
    rcases List.mem_cons.mp hp with rfl | hp
    · simp only [List.sum_cons]
      omega
    · obtain ⟨h1, h2⟩ := ih (s + sz) p hp
      simp only [List.sum_cons]
      omega

theorem sum_indicator_lt (r : ℕ) :
    ∀ k : ℕ, ((List.range k).map (fun i => if i < r then 1 else 0)).sum = min k r := by
  intro k
  induction k with
  | zero => simp
  | succ k ih =>
    rw [List.range_succ, List.map_append, List.sum_append, ih]
    by_cases hk : k < r <;> simp [hk] <;> omega

theorem foldSizes_sum (n k : ℕ) (hk : 0 < k) : (foldSizes n k).sum = n := by
  have hsplit : ((List.range k).map (fun i => n / k + if i < n % k then 1 else 0)).sum
      = ((List.range k).map (fun _ => n / k)).sum
        + ((List.range k).map (fun i => if i < n % k then 1 else 0)).sum := by
    induction (List.range k) with
    | nil => simp
    | cons a l ihl =>
      simp only [List.map_cons, List.sum_cons, ihl]
      ring
  rw [foldSizes, hsplit, List.map_const', List.sum_replicate, sum_indicator_lt,
    List.length_range, smul_eq_mul]
  have hmod : n % k < k := Nat.mod_lt n hk
  rw [Nat.min_eq_right (le_of_lt hmod)]
  exact Nat.div_add_mod n k

theorem zip_drop {α β : Type} :
    ∀ (n : ℕ) (l1 : List α) (l2 : List β),
      (l1.zip l2).drop n = (l1.drop n).zip (l2.drop n) := by
  intro n
  induction n with
  | zero => simp
  | succ n ih =>
    intro l1 l2
    cases l1 with
    | nil => simp
    | cons a l1 =>
      cases l2 with
      | nil => simp
      | cons b l2 => simp [ih]

theorem getD_map_lt {α β : Type} (f : α → β) (l : List α) (i : ℕ) (d : α) (e : β)
    (h : i < l.length) : (l.map f).getD i e = f (l.getD i d) := by
  rw [List.getD_eq_getElem _ _ (by simpa using h), List.getD_eq_getElem _ _ h,
    List.getElem_map]

theorem getD_zip_lt {α β : Type} (l1 : List α) (l2 : List β) (i : ℕ) (d1 : α) (d2 : β)
    (h1 : i < l1.length) (h2 : i < l2.length) :
    (l1.zip l2).getD i (d1, d2) = (l1.getD i d1, l2.getD i d2) := by
  rw [List.getD_eq_getElem _ _ (by rw [List.length_zip]; omega),
    List.getD_eq_getElem _ _ h1, List.getD_eq_getElem _ _ h2, List.getElem_zip]

theorem getD_of_drop_cons {α : Type} (l : List α) (i : ℕ) (x : α) (t : List α) (d : α)
    (h : l.drop i = x :: t) : l.getD i d = x := by
  have h1 : l[i]? = some x := by
    rw [← List.head?_drop, h, List.head?_cons]
  rw [List.getD_eq_getElem?_getD, h1, Option.getD_some]

theorem take_getD_drop {α : Type} (l : List α) (i : ℕ) (d : α) (h : i < l.length) :
    l = l.take i ++ l.getD i d :: l.drop (i + 1) := by
  rw [List.getD_eq_getElem _ _ h, ← List.drop_eq_getElem_cons h, List.take_append_drop]

/-- The assembled out-of-fold column, restricted to fold `i`'s validation
indices, is exactly fold `i`'s model's predictions there. -/
theorem oofColumn_restrict (df : List Row) (models : List FoldModel) (k : ℕ)
    (hk : 0 < k) (i : ℕ) (hi : i < (get_fold_splitting k df.length).length)
    (hmlen : models.length = (get_fold_splitting k df.length).length) :
    restrictIdx
      (oofColumn df ((get_fold_splitting k df.length).zip models))
      ((get_fold_splitting k df.length).getD i ([], [])).2 0
    = foldPredictions df (models.getD i ⟨[], [], none, 0⟩)
        ((get_fold_splitting k df.length).getD i ([], [])).2 := by
  classical
  set n := df.length with hn
  set szs := foldSizes n k with hszs
  set base := splitsOfSizes 0 szs with hbase
  have hblen : base.length = szs.length := splitsOfSizes_length 0 szs
  have hsum : szs.sum = n := foldSizes_sum n k hk
  have hsplen : (get_fold_splitting k n).length = base.length := by
    rw [get_fold_splitting, List.length_map]
  have hilen : i < base.length := hsplen ▸ hi
  have himod : i < models.length := by rw [hmlen]; exact hi
  have hszi : i < szs.length := hblen ▸ hilen
  set S := (szs.take i).sum with hS
  have hdrop : base.drop i = splitsOfSizes S (szs.drop i) := by
    rw [hbase, splitsOfSizes_drop, Nat.zero_add]
  have hdropsz : szs.drop i = szs[i] :: szs.drop (i + 1) :=
    List.drop_eq_getElem_cons hszi
  have hdropcons : base.drop i
      = (S, szs[i]) :: splitsOfSizes (S + szs[i]) (szs.drop (i + 1)) := by
    rw [hdrop, hdropsz, splitsOfSizes]
  have hbi : base.getD i (0, 0) = (S, szs[i]) :=
    getD_of_drop_cons base i _ _ _ hdropcons
  have hbound : S + szs[i] ≤ n := by
    have hmem : ((S, szs[i]) : ℕ × ℕ) ∈ base := by
      rw [← hbi, List.getD_eq_getElem _ _ hilen]
      exact List.getElem_mem hilen
    have := splitsOfSizes_mem_bound szs 0 _ hmem
    simpa [hsum] using this.2
  have hsplits : get_fold_splitting k n
      = base.map (fun ss => ((List.range n).filter
          (fun j => decide (j < ss.1) || decide (ss.1 + ss.2 ≤ j)),
        List.range' ss.1 ss.2)) := rfl
  have hgi : (get_fold_splitting k n).getD i ([], [])
      = ((List.range n).filter (fun j => decide (j < S) || decide (S + szs[i] ≤ j)),
         List.range' S szs[i]) := by
    rw [hsplits, getD_map_lt _ base i (0, 0) _ hilen, hbi]
  set m := models.getD i ⟨[], [], none, 0⟩ with hm
  rw [hgi]
  rw [restrictIdx, foldPredictions, restrictIdx, List.map_map]
  apply List.map_congr_left
  intro j hj
  rw [List.mem_range'_1] at hj
  obtain ⟨hjS, hjlt⟩ := hj
  have hjn : j < n := lt_of_lt_of_le hjlt hbound
  have hoofget : (oofColumn df ((get_fold_splitting k n).zip models)).getD j 0
      = writeAll (fun _ => 0)
          (((get_fold_splitting k n).zip models).map
            (fun sm => (sm.1.2, foldPredictions df sm.2 sm.1.2))) j := by
    rw [oofColumn, List.getD_eq_getElem _ _ (by simpa using hjn), List.getElem_map,
      List.getElem_range]
  simp only [Function.comp_apply]
  rw [hoofget]
  set L := ((get_fold_splitting k n).zip models).map
    (fun sm => (sm.1.2, foldPredictions df sm.2 sm.1.2)) with hL
  have hiL : i < L.length := by
    rw [hL, List.length_map, List.length_zip, hmlen, inf_idem]
    exact hi
  have hzlen : i < ((get_fold_splitting k n).zip models).length := by
    rw [List.length_zip, hmlen, inf_idem]; exact hi
  have hLget : L.getD i ([], [])
      = (List.range' S szs[i], foldPredictions df m (List.range' S szs[i])) := by
    rw [hL, getD_map_lt _ _ i (([], []), (⟨[], [], none, 0⟩ : FoldModel)) _ hzlen,
      getD_zip_lt _ _ i _ _ hi himod, hgi, hm]
  have hLdecomp : L = L.take i ++
      (List.range' S szs[i], foldPredictions df m (List.range' S szs[i]))
        :: L.drop (i + 1) := by
    rw [← hLget]
    exact take_getD_drop L i ([], []) hiL
  rw [hLdecomp, writeAll, List.foldl_append]
  show writeAll (writeAt (writeAll (fun _ => 0) (L.take i))
      ((List.range' S szs[i]).zip (foldPredictions df m (List.range' S szs[i]))))
      (L.drop (i + 1)) j = _
  rw [writeAll_not_mem]
  · have hlenpred : (foldPredictions df m (List.range' S szs[i])).length = szs[i] := by
      simp [foldPredictions, restrictIdx]
    rw [show j = S + (j - S) by omega,
      writeAt_range' szs[i] S _ _ (j - S) hlenpred (by omega)]
    rw [List.getD_eq_getElem _ _ (by rw [hlenpred]; omega)]
    simp only [foldPredictions, restrictIdx, List.map_map, List.getElem_map,
      List.getElem_range', Function.comp_apply]
    have he : S + 1 * (j - S) = j := by omega
    rw [he, show S + (j - S) = j by omega]
  · intro p hp
    rw [hL, ← List.map_drop] at hp
    obtain ⟨sm, hsm, rfl⟩ := List.mem_map.mp hp
    rw [zip_drop] at hsm
    have hsm1 : sm.1 ∈ (get_fold_splitting k n).drop (i + 1) := (List.of_mem_zip hsm).1
    rw [hsplits, ← List.map_drop] at hsm1
    obtain ⟨ss, hss, hG⟩ := List.mem_map.mp hsm1
    have hdrop1 : base.drop (i + 1) = splitsOfSizes (S + szs[i]) (szs.drop (i + 1)) := by
      rw [hbase, splitsOfSizes_drop, Nat.zero_add, List.sum_take_succ _ _ hszi]
    rw [hdrop1] at hss
    have hstart := (splitsOfSizes_mem_bound _ _ _ hss).1
    intro hjmem
    rw [← hG] at hjmem
    simp only [List.mem_range'_1] at hjmem
    omega

/-- A fit that does not hit the cache runs the trials and keeps the best
one: there is a trial hyperparameter whose run determines the output column,
the new state and the disk. -/
theorem fitInner_spec (score : List ℚ → List ℚ → ℚ) (params : OOFParams)
    (s : FeatureState) (disk : Disk) (df : List Row) (y : List ℚ)
    (ht : params.trials ≠ []) :
    ∃ hyper ∈ params.trials,
      fitInner score params s disk df y
        = ((runTrial score params.strategy params.sample_weight params.n_folds df y hyper).2.2,
           { s with
              feat_on_train_df := some (df, y,
                (runTrial score params.strategy params.sample_weight params.n_folds df y hyper).2.2)
              fitted_models :=
                (runTrial score params.strategy params.sample_weight params.n_folds df y hyper).2.1
              study_best_value := some
                (runTrial score params.strategy params.sample_weight params.n_folds df y hyper).1
              finish_fit := true },
           if s.is_recording
           then diskWrite disk s.serializer_path
                  (runTrial score params.strategy params.sample_weight params.n_folds df y hyper).2.1
           else disk) := by
  obtain ⟨t, ts, htr⟩ : ∃ t ts, params.trials = t :: ts := by
    match h : params.trials, ht with
    | t :: ts, _ => exact ⟨t, ts, rfl⟩
  have hb : pickBest (params.trials.map
      (runTrial score params.strategy params.sample_weight params.n_folds df y))
      = some ((ts.map (runTrial score params.strategy params.sample_weight params.n_folds df y)).foldl
          (fun best c => if best.1 < c.1 then c else best)
          (runTrial score params.strategy params.sample_weight params.n_folds df y t)) := by
    rw [htr]
    rfl
  have hmem := pickBest_mem _ _ hb
  obtain ⟨hyper, hhyp, hFh⟩ := List.mem_map.mp hmem
  refine ⟨hyper, hhyp, ?_⟩
  rw [fitInner, hb, ← hFh]

theorem fit_cache_hit (score : List ℚ → List ℚ → ℚ) (params : OOFParams)
    (s : FeatureState) (disk : Disk) (df : List Row) (y : List ℚ)
    (c : List Row × List ℚ × List ℚ)
    (hc : s.feat_on_train_df = some c) (h1 : c.1 = df) (h2 : c.2.1 = y) :
    fit score params s disk df y = (c.2.2, s, disk) := by
  rw [fit, hc]
  simp [h1, h2]

theorem fit_cache_miss_none (score : List ℚ → List ℚ → ℚ) (params : OOFParams)
    (s : FeatureState) (disk : Disk) (df : List Row) (y : List ℚ)
    (hc : s.feat_on_train_df = none) :
    fit score params s disk df y = fitInner score params s disk df y := by
  rw [fit, hc]

theorem fit_cache_miss_stale (score : List ℚ → List ℚ → ℚ) (params : OOFParams)
    (s : FeatureState) (disk : Disk) (df : List Row) (y : List ℚ)
    (c : List Row × List ℚ × List ℚ)
    (hc : s.feat_on_train_df = some c) (h : ¬ (c.1 = df ∧ c.2.1 = y)) :
    fit score params s disk df y = fitInner score params s disk df y := by
  rw [fit, hc]
  simp [h]

theorem zip_map_self_eq {α β : Type} (f : α → β) :
    ∀ l : List α, l.zip (l.map f) = l.map (fun x => (x, f x)) := by
  intro l
  induction l with
  | nil => rfl
  | cons a l ih => simp [ih]

theorem mem_zip_map_self {α β : Type} (f : α → β) :
    ∀ (l : List α) (p : α × β), p ∈ l.zip (l.map f) → p.2 = f p.1 := by
  intro l
  induction l with
  | nil => intro p hp; cases hp
  | cons a l ih =>
    intro p hp
    simp only [List.map_cons, List.zip_cons_cons] at hp
    rcases List.mem_cons.mp hp with rfl | hp
    · rfl
    · exact ih p hp

/-! ### Claim theorems for `vivid/visualize.py` -/

/-- C8: `extract_importance` returns the first of the attributes
`feature_importances_`, `feature_importance_`, `coef_` present on the
estimator, in that priority order, and raises `NotSupportedError` when none
is present; `NotSupportedError` is a direct subclass of `BaseException` (not
of `Exception`), so a generic `except Exception` handler does not catch it. -/
theorem extract_importance_spec (clf : Clf) :
    (∀ v, clf.feature_importances_ = some v → extract_importance clf = .ok v) ∧
    (clf.feature_importances_ = none →
      ∀ v, clf.feature_importance_ = some v → extract_importance clf = .ok v) ∧
    (clf.feature_importances_ = none → clf.feature_importance_ = none →
      ∀ v, clf.coef_ = some v → extract_importance clf = .ok v) ∧
    (clf.feature_importances_ = none → clf.feature_importance_ = none →
      clf.coef_ = none → extract_importance clf = .error .NotSupportedError) ∧
    pyParent .NotSupportedError = some .BaseException ∧
    caughtBy .Exception .NotSupportedError = false := by
  obtain ⟨a, b, c⟩ := clf
  refine ⟨?_, ?_, ?_, ?_, rfl, rfl⟩ <;>
    cases a <;> cases b <;> cases c <;> simp [extract_importance]

theorem extract_importance_spec_witness :
    extract_importance ⟨none, none, none⟩ = .error .NotSupportedError ∧
    extract_importance ⟨none, some [2], some [3]⟩ = .ok [2] :=
  ⟨(extract_importance_spec ⟨none, none, none⟩).2.2.2.1 rfl rfl rfl,
   (extract_importance_spec ⟨none, some [2], some [3]⟩).2.1 rfl [2] rfl⟩

/-- C9: `check_y_and_pred` determines the classes as `range(n_columns)` for
2-dimensional `y_true` and as the distinct values with nonzero `int` cast for
1-dimensional `y_true` (so a binary 0/1 target yields the single class `1`),
and returns both arrays reshaped to shape `(-1, n_classes)`: every row of the
results has length `n_classes` and flattening recovers the original data. -/
theorem check_y_and_pred_spec :
    (∀ (rows : List (List ℚ)) (c : ℕ), rows ≠ [] → (∀ r ∈ rows, r.length = c) →
      checkClasses (.twoD rows) = (List.range c).map (fun i => (i : ℚ))) ∧
    (∀ (ys : List ℚ) (x : ℚ),
      x ∈ checkClasses (.oneD ys) ↔ x ∈ ys ∧ pyInt x ≠ 0) ∧
    (∀ ys : List ℚ, (checkClasses (.oneD ys)).Nodup) ∧
    (∀ ys : List ℚ, (∀ x ∈ ys, x = 0 ∨ x = 1) → (1 : ℚ) ∈ ys →
      checkClasses (.oneD ys) = [1]) ∧
    (∀ (yt yp : YArray) (a b : List (List ℚ)) (cs : List ℚ),
      check_y_and_pred yt yp = some (a, b, cs) →
      cs = checkClasses yt ∧
      (∀ r ∈ a, r.length = cs.length) ∧ (∀ r ∈ b, r.length = cs.length) ∧
      a.flatten = yt.flat ∧ b.flatten = yp.flat) := by
  refine ⟨?_, mem_checkClasses_oneD, nodup_checkClasses_oneD, ?_, ?_⟩
  · intro rows c hne hlen
    match rows with
    | r :: rest =>
      simp only [checkClasses, List.headD_cons, hlen r (List.mem_cons_self _ _)]
  · intro ys hbin hone
    refine nodup_all_eq_singleton _ 1 (nodup_checkClasses_oneD ys) ?_ ?_
    · intro x hx
      obtain ⟨hmem, hne⟩ := (mem_checkClasses_oneD ys x).mp hx
      rcases hbin x hmem with rfl | rfl
      · exact absurd rfl hne
      · rfl
    · exact (mem_checkClasses_oneD ys 1).mpr ⟨hone, by decide⟩
  · intro yt yp a b cs h
    rcases ha : npReshapeNeg1 yt.flat (checkClasses yt).length with _ | ga
    · simp [check_y_and_pred, ha] at h
    rcases hb : npReshapeNeg1 yp.flat (checkClasses yt).length with _ | gb
    · simp [check_y_and_pred, ha, hb] at h
    have h' : some ((ga, gb, checkClasses yt) :
        List (List ℚ) × List (List ℚ) × List ℚ) = some (a, b, cs) := by
      rw [← h]
      simp [check_y_and_pred, ha, hb]
    injection h' with h'
    obtain ⟨rfl, rfl, rfl⟩ :
        ga = a ∧ gb = b ∧ checkClasses yt = cs := by
      simpa using h'
    obtain ⟨hgf, hgl⟩ := npReshapeNeg1_eq_some _ _ _ ha
    obtain ⟨hgf', hgl'⟩ := npReshapeNeg1_eq_some _ _ _ hb
    exact ⟨rfl, hgl, hgl', hgf, hgf'⟩

theorem check_y_and_pred_spec_witness :
    checkClasses (.oneD [0, 1, 1, 0]) = [1] ∧
    checkClasses (.twoD [[1, 2, 3], [4, 5, 6]]) = [0, 1, 2] :=
  ⟨check_y_and_pred_spec.2.2.2.1 [0, 1, 1, 0] (by decide) (by decide),
   by
    have h := check_y_and_pred_spec.1 [[1, 2, 3], [4, 5, 6]] 3 (by decide)
      (by decide)
    rw [h]; decide⟩

/-- C10: with the importance dataframe computable, a `plot_type` other than
`"bar"` or `"boxen"` makes `visualize_feature_importance` raise `ValueError`
after computing the dataframe and before drawing any plot, while `"bar"` and
`"boxen"` draw the plot and raise no such error. -/
theorem plot_type_dispatch (models : List Clf) (columns : List ℕ)
    (plot_type : String) (top_n : Option ℕ) (rows : List ImpRow)
    (h : importanceRows columns 0 models = .ok rows) :
    (plot_type ≠ "bar" → plot_type ≠ "boxen" →
      (visualize_feature_importance models columns plot_type top_n).result
          = .error .ValueError ∧
      (visualize_feature_importance models columns plot_type top_n).events
          = [.computedImportanceDf] ∧
      Event.drewPlot ∉ (visualize_feature_importance models columns plot_type top_n).events) ∧
    (plot_type = "bar" ∨ plot_type = "boxen" →
      ∃ ord,
        (visualize_feature_importance models columns plot_type top_n).result
            = .ok (rows, ord) ∧
        (visualize_feature_importance models columns plot_type top_n).events
            = [.computedImportanceDf, .drewPlot]) := by
  constructor
  · intro hbar hboxen
    have hcond : ¬ (plot_type = "boxen" ∨ plot_type = "bar") := by
      rintro (rfl | rfl)
      · exact hboxen rfl
      · exact hbar rfl
    simp [visualize_feature_importance, h, hcond]
  · intro hok
    have hcond : plot_type = "boxen" ∨ plot_type = "bar" := hok.symm
    rcases top_n with _ | n
    · exact ⟨orderOf rows,
        by simp [visualize_feature_importance, h, hcond],
        by simp [visualize_feature_importance, h, hcond]⟩
    · exact ⟨(orderOf rows).take n,
        by simp [visualize_feature_importance, h, hcond],
        by simp [visualize_feature_importance, h, hcond]⟩

theorem plot_type_dispatch_witness :
    (visualize_feature_importance [⟨some [3, 1], none, none⟩] [10, 20] "box" none).result
        = .error .ValueError ∧
    (visualize_feature_importance [⟨some [3, 1], none, none⟩] [10, 20] "box" none).events
        = [.computedImportanceDf] :=
  ⟨((plot_type_dispatch [⟨some [3, 1], none, none⟩] [10, 20] "box" none
      [⟨3, 10, 1⟩, ⟨1, 20, 1⟩] rfl).1 (by decide) (by decide)).1,
   ((plot_type_dispatch [⟨some [3, 1], none, none⟩] [10, 20] "box" none
      [⟨3, 10, 1⟩, ⟨1, 20, 1⟩] rfl).1 (by decide) (by decide)).2.1⟩

/-- C7: when every model exposes an importance vector over the `m` columns,
`visualize_feature_importance` builds an importance dataframe with exactly
`n * m` rows whose `fold` column numbers the models `1..n` in blocks in input
order, draws the plot, and the plotting order is a permutation of the
distinct columns sorted by descending summed importance, truncated to the
first `top_n` entries when `top_n` is an int. -/
theorem visualize_feature_importance_spec (models : List Clf) (columns : List ℕ)
    (topn : ℕ)
    (h : ∀ m ∈ models, ∃ v, extract_importance m = .ok v ∧ v.length = columns.length) :
    ∃ rows,
      importanceRows columns 0 models = .ok rows ∧
      rows.length = models.length * columns.length ∧
      rows.map ImpRow.fold
        = (List.range' 1 models.length).flatMap
            (fun j => List.replicate columns.length j) ∧
      (orderOf rows).Perm (rows.map ImpRow.column).dedup ∧
      List.Sorted (fun a b => colSum rows b ≤ colSum rows a) (orderOf rows) ∧
      visualize_feature_importance models columns "bar" (some topn)
        = ⟨[.computedImportanceDf, .drewPlot], .ok (rows, (orderOf rows).take topn)⟩ ∧
      visualize_feature_importance models columns "bar" none
        = ⟨[.computedImportanceDf, .drewPlot], .ok (rows, orderOf rows)⟩ := by
  obtain ⟨rows, hrows, hlen, hfold⟩ := importanceRows_ok columns models 0 h
  have hperm : (orderOf rows).Perm (rows.map ImpRow.column).dedup :=
    (List.perm_insertionSort _ _).trans (List.perm_insertionSort _ _)
  have hsorted : List.Sorted (fun a b => colSum rows b ≤ colSum rows a) (orderOf rows) := by
    haveI : IsTotal ℕ (fun a b => colSum rows b ≤ colSum rows a) :=
      ⟨fun a b => le_total _ _⟩
    haveI : IsTrans ℕ (fun a b => colSum rows b ≤ colSum rows a) :=
      ⟨fun _ _ _ hab hbc => le_trans hbc hab⟩
    exact List.sorted_insertionSort _ _
  refine ⟨rows, hrows, hlen, hfold, hperm, hsorted, ?_, ?_⟩ <;>
    simp [visualize_feature_importance, hrows, orderOf]

theorem visualize_feature_importance_spec_witness :
    ∃ rows,
      importanceRows [10, 20] 0 [⟨some [3, 1], none, none⟩, ⟨none, some [2, 5], none⟩]
          = .ok rows ∧
      rows.length = 2 * 2 ∧
      rows.map ImpRow.fold
        = (List.range' 1 2).flatMap (fun j => List.replicate 2 j) ∧
      (orderOf rows).Perm (rows.map ImpRow.column).dedup ∧
      List.Sorted (fun a b => colSum rows b ≤ colSum rows a) (orderOf rows) ∧
      visualize_feature_importance [⟨some [3, 1], none, none⟩, ⟨none, some [2, 5], none⟩]
          [10, 20] "bar" (some 1)
        = ⟨[.computedImportanceDf, .drewPlot], .ok (rows, (orderOf rows).take 1)⟩ ∧
      visualize_feature_importance [⟨some [3, 1], none, none⟩, ⟨none, some [2, 5], none⟩]
          [10, 20] "bar" none
        = ⟨[.computedImportanceDf, .drewPlot], .ok (rows, orderOf rows)⟩ :=
  visualize_feature_importance_spec
    [⟨some [3, 1], none, none⟩, ⟨none, some [2, 5], none⟩] [10, 20] 1
    (by
      intro m hm
      rcases List.mem_cons.mp hm with rfl | hm
      · exact ⟨[3, 1], rfl, rfl⟩
      · rcases List.mem_cons.mp hm with rfl | hm
        · exact ⟨[2, 5], rfl, rfl⟩
        · cases hm)

/-! ### Claim theorems for the out-of-fold feature (modelled from the spec) -/

/-- C1: after a fit the in-memory cache `feat_on_train_df` is populated with
the inputs and output, and a second `fit` with identical inputs
short-circuits: it returns the cached output and changes nothing (no refit,
same state, same disk). -/
theorem fit_use_cache (score : List ℚ → List ℚ → ℚ) (params : OOFParams)
    (s0 : FeatureState) (disk : Disk) (df : List Row) (y : List ℚ)
    (ht : params.trials ≠ []) :
    (fit score params s0 disk df y).2.1.feat_on_train_df
        = some (df, y, (fit score params s0 disk df y).1) ∧
    fit score params (fit score params s0 disk df y).2.1
        (fit score params s0 disk df y).2.2 df y
      = fit score params s0 disk df y := by
  have hcache : (fit score params s0 disk df y).2.1.feat_on_train_df
      = some (df, y, (fit score params s0 disk df y).1) := by
    rcases hc : s0.feat_on_train_df with _ | c
    · obtain ⟨hyper, _, heq⟩ := fitInner_spec score params s0 disk df y ht
      rw [fit_cache_miss_none score params s0 disk df y hc, heq]
    · by_cases hcond : c.1 = df ∧ c.2.1 = y
      · rw [fit_cache_hit score params s0 disk df y c hc hcond.1 hcond.2, hc,
          ← hcond.1, ← hcond.2]
      · obtain ⟨hyper, _, heq⟩ := fitInner_spec score params s0 disk df y ht
        rw [fit_cache_miss_stale score params s0 disk df y c hc hcond, heq]
  exact ⟨hcache,
    fit_cache_hit score params _ _ df y (df, y, (fit score params s0 disk df y).1)
      hcache rfl rfl⟩

theorem fit_use_cache_witness :
    (fit (fun _ _ => 0) ⟨2, [1], ScoringStrategy.whole, none⟩ (mkFeature false "p")
        [] [[1], [2]] [1, 2]).2.1.feat_on_train_df
      = some ([[1], [2]], [1, 2],
          (fit (fun _ _ => 0) ⟨2, [1], ScoringStrategy.whole, none⟩ (mkFeature false "p")
            [] [[1], [2]] [1, 2]).1) :=
  (fit_use_cache (fun _ _ => 0) ⟨2, [1], ScoringStrategy.whole, none⟩ (mkFeature false "p")
    [] [[1], [2]] [1, 2] (by decide)).1

/-- C2: `load_best_models` raises `NotFittedError` whenever the feature has
not been fit with recording enabled — before any fit (no file at the
serializer path), and after a fit without a recording parent — and succeeds
without raising right after a recorded fit completes. -/
theorem load_best_models_spec (score : List ℚ → List ℚ → ℚ) (params : OOFParams)
    (rec : Bool) (path : String) (disk0 : Disk) (df : List Row) (y : List ℚ)
    (hfresh : diskRead disk0 path = none) (ht : params.trials ≠ []) :
    load_best_models (mkFeature rec path) disk0 = .error .NotFittedError ∧
    (rec = false →
      load_best_models (fit score params (mkFeature rec path) disk0 df y).2.1
          (fit score params (mkFeature rec path) disk0 df y).2.2
        = .error .NotFittedError) ∧
    (rec = true →
      load_best_models (fit score params (mkFeature rec path) disk0 df y).2.1
          (fit score params (mkFeature rec path) disk0 df y).2.2
        = .ok (fit score params (mkFeature rec path) disk0 df y).2.1.fitted_models) := by
  obtain ⟨hyper, _, heq⟩ := fitInner_spec score params (mkFeature rec path) disk0 df y ht
  have hfit : fit score params (mkFeature rec path) disk0 df y
      = fitInner score params (mkFeature rec path) disk0 df y :=
    fit_cache_miss_none score params _ disk0 df y rfl
  refine ⟨?_, ?_, ?_⟩
  · cases rec
    · rw [load_best_models]
      simp [mkFeature]
    · rw [load_best_models]
      simp [mkFeature, hfresh]
  · intro hrec
    subst hrec
    rw [hfit, heq, load_best_models]
    simp [mkFeature]
  · intro hrec
    subst hrec
    rw [hfit, heq, load_best_models]
    simp [mkFeature, diskWrite, diskRead]

theorem load_best_models_spec_witness :
    load_best_models
        (fit (fun _ _ => 0) ⟨2, [1], ScoringStrategy.whole, none⟩ (mkFeature true "p")
          [] [[1], [2]] [1, 2]).2.1
        (fit (fun _ _ => 0) ⟨2, [1], ScoringStrategy.whole, none⟩ (mkFeature true "p")
          [] [[1], [2]] [1, 2]).2.2
      = .ok (fit (fun _ _ => 0) ⟨2, [1], ScoringStrategy.whole, none⟩ (mkFeature true "p")
          [] [[1], [2]] [1, 2]).2.1.fitted_models :=
  (load_best_models_spec (fun _ _ => 0) ⟨2, [1], ScoringStrategy.whole, none⟩ true "p"
    [] [[1], [2]] [1, 2] rfl (by decide)).2.2 rfl

/-- C4: for a feature with a recording parent, no file exists at the
serializer path before fit, and after `fit(df, y)` the fold models are
serialized at the path (one per fold of the splitting), with `is_recording`
and `finish_fit` both true. -/
theorem recording_fit_spec (score : List ℚ → List ℚ → ℚ) (params : OOFParams)
    (path : String) (disk0 : Disk) (df : List Row) (y : List ℚ)
    (hfresh : diskRead disk0 path = none) (ht : params.trials ≠ []) :
    diskRead disk0 (mkFeature true path).serializer_path = none ∧
    (fit score params (mkFeature true path) disk0 df y).2.1.is_recording = true ∧
    (fit score params (mkFeature true path) disk0 df y).2.1.finish_fit = true ∧
    diskRead (fit score params (mkFeature true path) disk0 df y).2.2 path
      = some (fit score params (mkFeature true path) disk0 df y).2.1.fitted_models ∧
    (fit score params (mkFeature true path) disk0 df y).2.1.fitted_models.length
      = (get_fold_splitting params.n_folds df.length).length := by
  obtain ⟨hyper, _, heq⟩ := fitInner_spec score params (mkFeature true path) disk0 df y ht
  have hfit : fit score params (mkFeature true path) disk0 df y
      = fitInner score params (mkFeature true path) disk0 df y :=
    fit_cache_miss_none score params _ disk0 df y rfl
  rw [hfit, heq]
  refine ⟨hfresh, rfl, rfl, ?_, ?_⟩
  · simp [mkFeature, diskWrite, diskRead]
  · simp [runTrial]

theorem recording_fit_spec_witness :
    diskRead
        (fit (fun _ _ => 0) ⟨2, [1], ScoringStrategy.whole, none⟩ (mkFeature true "p")
          [] [[1], [2]] [1, 2]).2.2 "p"
      = some (fit (fun _ _ => 0) ⟨2, [1], ScoringStrategy.whole, none⟩ (mkFeature true "p")
          [] [[1], [2]] [1, 2]).2.1.fitted_models :=
  (recording_fit_spec (fun _ _ => 0) ⟨2, [1], ScoringStrategy.whole, none⟩ "p"
    [] [[1], [2]] [1, 2] rfl (by decide)).2.2.2.1

/-- C5: serialization round-trip — a freshly constructed feature with the
same recording parent and name (hence the same serializer path), never fit,
deserializes the cached fold models on `predict` and returns exactly the
predictions of the originally fitted feature on the same dataframe. -/
theorem serialization_roundtrip (score : List ℚ → List ℚ → ℚ) (params : OOFParams)
    (path : String) (disk0 : Disk) (df : List Row) (y : List ℚ) (dfq : List Row)
    (ht : params.trials ≠ []) :
    predict (mkFeature true path)
        (fit score params (mkFeature true path) disk0 df y).2.2 dfq
      = predict (fit score params (mkFeature true path) disk0 df y).2.1
          (fit score params (mkFeature true path) disk0 df y).2.2 dfq ∧
    predict (mkFeature true path)
        (fit score params (mkFeature true path) disk0 df y).2.2 dfq
      = .ok (ensemblePredict
          (fit score params (mkFeature true path) disk0 df y).2.1.fitted_models dfq) := by
  obtain ⟨hyper, _, heq⟩ := fitInner_spec score params (mkFeature true path) disk0 df y ht
  have hfit : fit score params (mkFeature true path) disk0 df y
      = fitInner score params (mkFeature true path) disk0 df y :=
    fit_cache_miss_none score params _ disk0 df y rfl
  rw [hfit, heq]
  constructor <;> simp [predict, load_best_models, mkFeature, diskWrite, diskRead]

theorem serialization_roundtrip_witness :
    predict (mkFeature true "p")
        (fit (fun _ _ => 0) ⟨2, [1], ScoringStrategy.whole, none⟩ (mkFeature true "p")
          [] [[1], [2]] [1, 2]).2.2 [[5]]
      = .ok (ensemblePredict
          (fit (fun _ _ => 0) ⟨2, [1], ScoringStrategy.whole, none⟩ (mkFeature true "p")
            [] [[1], [2]] [1, 2]).2.1.fitted_models [[5]]) :=
  (serialization_roundtrip (fun _ _ => 0) ⟨2, [1], ScoringStrategy.whole, none⟩ "p"
    [] [[1], [2]] [1, 2] [[5]] (by decide)).2

/-- C6: `fit` computes the fold splitting and fits exactly one model per
fold, in order: the fitted models correspond one-to-one with the splits of
`get_fold_splitting`, each trained on its fold's training partition only,
with any per-sample fit argument (`sample_weight`) restricted to that fold's
training indices. -/
theorem fit_per_fold (score : List ℚ → List ℚ → ℚ) (params : OOFParams)
    (s0 : FeatureState) (disk : Disk) (df : List Row) (y : List ℚ)
    (hc : s0.feat_on_train_df = none) (ht : params.trials ≠ []) :
    (fit score params s0 disk df y).2.1.fitted_models.length
        = (get_fold_splitting params.n_folds df.length).length ∧
    ∃ hyper ∈ params.trials,
      ∀ p ∈ (get_fold_splitting params.n_folds df.length).zip
          (fit score params s0 disk df y).2.1.fitted_models,
        p.2 = fitFoldModel df y params.sample_weight hyper p.1.1 ∧
        p.2.train_X = restrictIdx df p.1.1 [] ∧
        p.2.train_y = restrictIdx y p.1.1 0 ∧
        p.2.fit_params_ = params.sample_weight.map (fun wv => restrictIdx wv p.1.1 0) := by
  obtain ⟨hyper, hhyp, heq⟩ := fitInner_spec score params s0 disk df y ht
  rw [fit_cache_miss_none score params s0 disk df y hc, heq]
  have hmodels : (runTrial score params.strategy params.sample_weight params.n_folds
        df y hyper).2.1
      = (get_fold_splitting params.n_folds df.length).map
          (fun tv => fitFoldModel df y params.sample_weight hyper tv.1) := by
    simp only [runTrial, List.map_map]
    rfl
  constructor
  · show (runTrial score params.strategy params.sample_weight params.n_folds
        df y hyper).2.1.length = _
    rw [hmodels, List.length_map]
  · refine ⟨hyper, hhyp, ?_⟩
    intro p hp
    rw [show ({ s0 with
          feat_on_train_df := some (df, y,
            (runTrial score params.strategy params.sample_weight params.n_folds df y hyper).2.2)
          fitted_models :=
            (runTrial score params.strategy params.sample_weight params.n_folds df y hyper).2.1
          study_best_value := some
            (runTrial score params.strategy params.sample_weight params.n_folds df y hyper).1
          finish_fit := true } : FeatureState).fitted_models
        = (runTrial score params.strategy params.sample_weight params.n_folds
            df y hyper).2.1 from rfl, hmodels] at hp
    have hp2 := mem_zip_map_self
      (fun tv => fitFoldModel df y params.sample_weight hyper tv.1) _ p hp
    exact ⟨hp2, by rw [hp2]; rfl, by rw [hp2]; rfl, by rw [hp2]; rfl⟩

theorem fit_per_fold_witness :
    (fit (fun _ _ => 0) ⟨2, [1], ScoringStrategy.whole, none⟩ (mkFeature false "p")
        [] [[1], [2]] [1, 2]).2.1.fitted_models.length
      = (get_fold_splitting 2 2).length :=
  (fit_per_fold (fun _ _ => 0) ⟨2, [1], ScoringStrategy.whole, none⟩ (mkFeature false "p")
    [] [[1], [2]] [1, 2] rfl (by decide)).1

/-- C3: for every out-of-fold feature (any scoring strategy), `fit` writes
each fold model's held-out predictions into the output column — the
assembled column restricted to any fold's validation indices equals that
fold's model's predictions there — and when the scoring strategy is `whole`
the score of the assembled out-of-fold column against `y` is the study's
best value. -/
theorem oof_predictions_spec (score : List ℚ → List ℚ → ℚ) (params : OOFParams)
    (s0 : FeatureState) (disk : Disk) (df : List Row) (y : List ℚ)
    (hc : s0.feat_on_train_df = none) (ht : params.trials ≠ [])
    (hk : 0 < params.n_folds) :
    (∀ i, i < (get_fold_splitting params.n_folds df.length).length →
      restrictIdx (fit score params s0 disk df y).1
          ((get_fold_splitting params.n_folds df.length).getD i ([], [])).2 0
        = foldPredictions df
            ((fit score params s0 disk df y).2.1.fitted_models.getD i ⟨[], [], none, 0⟩)
            ((get_fold_splitting params.n_folds df.length).getD i ([], [])).2) ∧
    (params.strategy = .whole →
      (fit score params s0 disk df y).2.1.study_best_value
        = some (score y (fit score params s0 disk df y).1)) := by
  obtain ⟨hyper, hhyp, heq⟩ := fitInner_spec score params s0 disk df y ht
  rw [fit_cache_miss_none score params s0 disk df y hc, heq]
  have hmodels : ((get_fold_splitting params.n_folds df.length).map
        (fun tv => (tv, fitFoldModel df y params.sample_weight hyper tv.1))).map Prod.snd
      = (get_fold_splitting params.n_folds df.length).map
          (fun tv => fitFoldModel df y params.sample_weight hyper tv.1) := by
    rw [List.map_map]
    rfl
  constructor
  · intro i hi
    show restrictIdx (runTrial score params.strategy params.sample_weight params.n_folds
        df y hyper).2.2 _ 0 = foldPredictions df
          ((runTrial score params.strategy params.sample_weight params.n_folds
            df y hyper).2.1.getD i ⟨[], [], none, 0⟩) _
    simp only [runTrial]
    rw [hmodels]
    have hsm : (get_fold_splitting params.n_folds df.length).map
          (fun tv => (tv, fitFoldModel df y params.sample_weight hyper tv.1))
        = (get_fold_splitting params.n_folds df.length).zip
            ((get_fold_splitting params.n_folds df.length).map
              (fun tv => fitFoldModel df y params.sample_weight hyper tv.1)) := by
      rw [zip_map_self_eq]
    rw [hsm]
    exact oofColumn_restrict df
      ((get_fold_splitting params.n_folds df.length).map
        (fun tv => fitFoldModel df y params.sample_weight hyper tv.1))
      params.n_folds hk i hi (List.length_map _ _)
  · intro hstrat
    show (some (runTrial score params.strategy params.sample_weight params.n_folds
        df y hyper).1 : Option ℚ)
      = some (score y (runTrial score params.strategy params.sample_weight
          params.n_folds df y hyper).2.2)
    simp only [runTrial]
    rw [hstrat]
    rfl

theorem oof_predictions_spec_witness :
    restrictIdx
        (fit (fun _ _ => 0) ⟨2, [1], ScoringStrategy.fold, none⟩ (mkFeature false "p")
          [] [[1], [2]] [1, 2]).1
        ((get_fold_splitting 2 2).getD 0 ([], [])).2 0
      = foldPredictions [[1], [2]]
          ((fit (fun _ _ => 0) ⟨2, [1], ScoringStrategy.fold, none⟩ (mkFeature false "p")
            [] [[1], [2]] [1, 2]).2.1.fitted_models.getD 0 ⟨[], [], none, 0⟩)
          ((get_fold_splitting 2 2).getD 0 ([], [])).2 ∧
    (fit (fun _ _ => 0) ⟨2, [1], ScoringStrategy.whole, none⟩ (mkFeature false "p")
        [] [[1], [2]] [1, 2]).2.1.study_best_value
      = some ((fun _ _ => (0 : ℚ)) [1, 2]
          (fit (fun _ _ => 0) ⟨2, [1], ScoringStrategy.whole, none⟩ (mkFeature false "p")
            [] [[1], [2]] [1, 2]).1) :=
  ⟨(oof_predictions_spec (fun _ _ => 0) ⟨2, [1], ScoringStrategy.fold, none⟩
      (mkFeature false "p") [] [[1], [2]] [1, 2] rfl (by decide) (by decide)).1
      0 (by decide),
   (oof_predictions_spec (fun _ _ => 0) ⟨2, [1], ScoringStrategy.whole, none⟩
      (mkFeature false "p") [] [[1], [2]] [1, 2] rfl (by decide) (by decide)).2 rfl⟩

end Vivid
